import Mathlib

/-!
# Verification of the Harper-challenge extraction pipeline

Shallow embedding of the field-extraction and reconciliation pipeline of the
repository (src/lib/extractionService.js, src/pages/api/extract-data.js,
src/pages/api/process-voice.js, src/config/formSchema.js), with theorems
settling the frozen claims about it.

JavaScript values reaching the pipeline are JSON primitives (the spec's data
model: "mapping of dotted-path keys to primitive or null values"), modelled by
`JVal`.  JS numbers are modelled as rationals: the concrete values handled by
the claims (decimal literals scaled by 1 000 / 1 000 000) are exactly
representable in both ℚ and IEEE doubles, and no claim depends on rounding.
`NaN`, `Infinity` and `undefined`-valued properties are outside the model
(an absent key plays the role of `undefined`).
-/

/-- A JSON/JS primitive value. -/
inductive JVal where
  | null : JVal
  | str : String → JVal
  | num : ℚ → JVal
  | bool : Bool → JVal
deriving DecidableEq, Repr

/-- A JS object with primitive values: an association list in insertion
order (JS objects have no repeated keys; theorems that need that carry a
`Nodup` hypothesis on the keys). -/
abbrev JMap := List (String × JVal)

/-- Property read `m[k]`: the value of the first entry with key `k`. -/
def jlookup : JMap → String → Option JVal
  | [], _ => none
  | (k', v) :: rest, k => if k' = k then some v else jlookup rest k

/-- Property write `m[k] = v`: update in place, else append (JS insertion
order). -/
def setK : JMap → String → JVal → JMap
  | [], k, v => [(k, v)]
  | (k', v') :: rest, k, v =>
      if k' = k then (k', v) :: rest else (k', v') :: setK rest k v

/-- JS truthiness of a primitive (`if (x)`). -/
def truthy : JVal → Bool
  | .null => false
  | .str s => s ≠ ""
  | .num q => q ≠ 0
  | .bool b => b

/-- Characters matched by the regex class `\s` and removed by
`String.prototype.trim` (ASCII fragment; the pipeline's data is ASCII). -/
def isWs (c : Char) : Bool :=
  c = ' ' ∨ c = '\t' ∨ c = '\n' ∨ c = '\r' ∨ c = '\x0b' ∨ c = '\x0c'

/-- Drop leading and trailing whitespace from a character list. -/
def trimL (cs : List Char) : List Char :=
  ((cs.dropWhile isWs).reverse.dropWhile isWs).reverse

/-- `String.prototype.trim`. -/
def jsTrim (s : String) : String := ⟨trimL s.data⟩

/-- `String.prototype.toLowerCase` (ASCII). -/
def jsLower (s : String) : String := ⟨s.data.map Char.toLower⟩

/-- Value of a digit string (most significant first). -/
def digitsVal (ds : List Char) : ℕ :=
  ds.foldl (fun a c => 10 * a + (c.toNat - 48)) 0

/-- `parseFloat` on an optional exponent tail: `e`/`E`, optional sign,
digits; consumed only when digits follow. Returns the exponent as applied. -/
def jpfExp (cs : List Char) : Int :=
  match cs with
  | e :: r =>
      if e = 'e' ∨ e = 'E' then
        match r with
        | '-' :: r2 =>
            let ed := r2.takeWhile Char.isDigit
            if ed = [] then 0 else -(digitsVal ed : Int)
        | '+' :: r2 =>
            let ed := r2.takeWhile Char.isDigit
            if ed = [] then 0 else (digitsVal ed : Int)
        | _ =>
            let ed := r.takeWhile Char.isDigit
            if ed = [] then 0 else (digitsVal ed : Int)
      else 0
  | [] => 0

/-- Multiplication of a rational by an integer, written through `mkRat` so
that it evaluates by kernel reduction (`q * (n : ℚ)`; see `qMulInt_eq`). -/
def qMulInt (q : ℚ) (n : ℤ) : ℚ := mkRat (q.num * n) q.den

theorem qMulInt_eq (q : ℚ) (n : ℤ) : qMulInt q n = q * (n : ℚ) := by
  rw [qMulInt, Rat.mkRat_eq_divInt, Rat.divInt_eq_div]
  push_cast
  rw [mul_comm ((q.num : ℚ)) ((n : ℚ)), mul_div_assoc, Rat.num_div_den, mul_comm]

/-- Core of JS `parseFloat` after leading whitespace: longest prefix
`[+-]? digits [. digits]? [e[+-]?digits]?` (at least one digit before or
after the point), trailing junk ignored; no prefix parses as `NaN = none`.
The value is `sign * (ipart·10^|fp| + fpart) · 10^e / 10^|fp|`, built as a
single `mkRat`. `Infinity` is outside the model (no call site can produce
it: every string reaching `parseFloat` here is first lower-cased or stripped
of letters other than a trailing multiplier, and no claim evaluates it). -/
def jpfCore (cs : List Char) : Option ℚ :=
  let (sgn, cs1) : ℤ × List Char :=
    match cs with
    | '-' :: r => (-1, r)
    | '+' :: r => (1, r)
    | _ => (1, cs)
  let ip := cs1.takeWhile Char.isDigit
  let cs2 := cs1.dropWhile Char.isDigit
  let (fp, cs3) : List Char × List Char :=
    match cs2 with
    | '.' :: r => (r.takeWhile Char.isDigit, r.dropWhile Char.isDigit)
    | _ => ([], cs2)
  if ip = [] ∧ fp = [] then none
  else
    let e : Int := jpfExp cs3
    let mant : ℤ := sgn * ((digitsVal ip : ℤ) * (10 : ℤ) ^ fp.length + (digitsVal fp : ℤ))
    some (mkRat (mant * (10 : ℤ) ^ e.toNat) ((10 : ℕ) ^ (fp.length + (-e).toNat)))

/-- JS `parseFloat` (returns `none` for `NaN`). -/
def jsParseFloat (s : String) : Option ℚ :=
  jpfCore (s.data.dropWhile isWs)

/-- Decimal digits of `r / den` for `0 ≤ r < den`, by long division
(fuel-bounded; every number the pipeline produces is a decimal literal
scaled by a power of ten, so the fuel is never exhausted there). -/
def fracDigitsI : ℕ → ℕ → ℕ → List Char
  | 0, _, _ => []
  | n + 1, r, den =>
      if r = 0 then []
      else Char.ofNat (48 + (r * 10) / den) :: fracDigitsI n ((r * 10) % den) den

/-- JS `String(n)` for the numbers the pipeline produces: integer or finite
decimal notation (the shortest-round-trip subtleties of `Number.toString`
do not arise for these values; no theorem depends on this rendering). -/
def jsNumToString (q : ℚ) : String :=
  let sign := if q.num < 0 then "-" else ""
  let a := q.num.natAbs
  let ipart := toString (a / q.den)
  let f := fracDigitsI 64 (a % q.den) q.den
  if f = [] then sign ++ ipart else sign ++ ipart ++ "." ++ ⟨f⟩

/-- JS `String(v)` on a primitive. -/
def jsToString : JVal → String
  | .null => "null"
  | .str s => s
  | .num q => jsNumToString q
  | .bool b => if b then "true" else "false"

/-- The digit-word map of `parseNumeric` (lib/extractionService.js) and of
the voice-path number coercion (pages/api/process-voice.js). -/
def numberWords : List (String × ℚ) :=
  [("one", 1), ("two", 2), ("three", 3), ("four", 4), ("five", 5),
   ("six", 6), ("seven", 7), ("eight", 8), ("nine", 9), ("ten", 10),
   ("zero", 0)]

/-- `value.replace(/[$,\s]/g, '')`. -/
def stripSvcChars (s : String) : String :=
  ⟨s.data.filter (fun c => ¬(c = '$' ∨ c = ',' ∨ isWs c))⟩

/-- `value.replace(/[$, ]/g, '')` (voice path: dollar, comma and the literal
space only — not the whole `\s` class). -/
def stripVoiceChars (s : String) : String :=
  ⟨s.data.filter (fun c => ¬(c = '$' ∨ c = ',' ∨ c = ' '))⟩

/-- `value.trim().match(/([mk])$/i)`: the trailing multiplier letter of the
trimmed original string, lower-cased. -/
def lastCharKM (t : String) : Option Char :=
  match t.data.getLast? with
  | some c =>
      if c = 'k' ∨ c = 'K' then some 'k'
      else if c = 'm' ∨ c = 'M' then some 'm'
      else none
  | none => none

/-- The word-mapping step of `parseNumeric` (lib/extractionService.js
lines 31–35): lower-case and trim, then replace a spelled-out digit word by
`String(digit)`. -/
def wordMapped (s : String) : String :=
  let t := jsLower (jsTrim s)
  match numberWords.lookup t with
  | some n => jsNumToString n
  | none => t

/-- The cleaned string `parseNumeric` hands to `parseFloat`
(lib/extractionService.js line 38). -/
def cleanedSvc (s : String) : String :=
  jsTrim (stripSvcChars (wordMapped s))

/-- Apply the trailing `k`/`m` multiplier of the original trimmed string
(lib/extractionService.js lines 44–50, identical in
pages/api/extract-data.js lines 45–51). -/
def applyMult (t : String) (q : ℚ) : ℚ :=
  if lastCharKM t = some 'm' then qMulInt q 1000000
  else if lastCharKM t = some 'k' then qMulInt q 1000
  else q

/-- `parseNumeric` of lib/extractionService.js (lines 27–54): native numbers
pass through; strings are lower-cased, trimmed, digit-word substituted,
stripped of `$`, `,` and whitespace, `parseFloat`-parsed, and scaled by a
trailing `k`/`m` of the original trimmed string; anything else is `null`. -/
def parseNumericSvc : JVal → Option ℚ
  | .num q => some q
  | .str s =>
      let cleaned := cleanedSvc s
      if cleaned = "" then none
      else
        match jsParseFloat cleaned with
        | none => none
        | some q => some (applyMult (jsTrim s) q)
  | _ => none

/-- `parseNumeric` of pages/api/extract-data.js (lines 33–56): like the
extraction-service version but with no lower-casing and no digit-word map. -/
def parseNumericED : JVal → Option ℚ
  | .num q => some q
  | .str s =>
      let cleaned := jsTrim (stripSvcChars s)
      if cleaned = "" then none
      else
        match jsParseFloat cleaned with
        | none => none
        | some q => some (applyMult (jsTrim s) q)
  | _ => none


/-! ## The ACORD 125 schema (src/config/formSchema.js) -/

/-- `isEmpty` of formSchema.js: `v === null || v === undefined || v === ''`
on a present value (`undefined` is an absent key, handled at `Option`
level by `isEmptyO`). -/
def emptyJ : JVal → Bool
  | .null => true
  | .str s => s = ""
  | _ => false

/-- `isEmpty` applied to a possibly-absent property. -/
def isEmptyO : Option JVal → Bool
  | none => true
  | some v => emptyJ v

/-- `isNonEmptyString`: a string with non-empty trim. -/
def isNonEmptyString : JVal → Bool
  | .str s => 0 < (jsTrim s).length
  | _ => false

/-- `(v) => typeof v === 'string' && v.trim().length >= n` (the address and
description validators). -/
def minLenString (n : ℕ) : JVal → Bool
  | .str s => n ≤ (jsTrim s).length
  | _ => false

/-- One character of the regex class `[\d\s()-.]` of `isPhoneNumber`:
digits, whitespace, `(`, and the range `)`–`.` (which contains
`) * + , - .`). -/
def phoneClassChar (c : Char) : Bool :=
  c.isDigit ∨ isWs c ∨ c = '(' ∨ (')' ≤ c ∧ c ≤ '.')

/-- `isPhoneNumber`: `/^[+]?[\d\s()-.]{7,}$/.test(v.trim())`.  Because `+`
itself belongs to the class (it lies in the range `)`–`.`), the optional
leading `[+]?` never changes matchability, and the test is equivalent to:
at least 7 characters, all in the class. -/
def isPhoneNumber : JVal → Bool
  | .str s =>
      let l := (jsTrim s).data
      7 ≤ l.length ∧ l.all phoneClassChar
  | _ => false

/-- `isEmail`: `/\S+@\S+\.\S+/.test(v.trim())` — the unanchored pattern
matches somewhere in the trimmed string iff there are positions `i < j` with
`s[i] = '@'`, a non-space immediately before `i`, only non-spaces strictly
between `i` and `j` (at least one), `s[j] = '.'`, and a non-space at
`j + 1`. -/
def isEmail : JVal → Bool
  | .str s =>
      let cs := (jsTrim s).data
      let n := cs.length
      (List.range n).any fun i =>
        cs.getD i ' ' = '@' ∧ 1 ≤ i ∧ ¬isWs (cs.getD (i - 1) ' ') ∧
        ((List.range n).any fun j =>
          i + 2 ≤ j ∧ cs.getD j ' ' = '.' ∧ j + 1 < n ∧ ¬isWs (cs.getD (j + 1) ' ') ∧
          ((List.range (j - (i + 1))).all fun t => ¬isWs (cs.getD (i + 1 + t) ' ')))
  | _ => false

/-- The lexical shape `YYYY-MM-DD` of `isIsoDateString`. -/
def isoDatePat (cs : List Char) : Bool :=
  match cs with
  | [a, b, c, d, '-', e, f, '-', g, h] => [a, b, c, d, e, f, g, h].all Char.isDigit
  | _ => false

/-- `isIsoDateString`: `/^\d{4}-\d{2}-\d{2}$/.test(v.trim())`. -/
def isIsoDateString : JVal → Bool
  | .str s => isoDatePat (jsTrim s).data
  | _ => false

/-- The lexical shape `XX-XXXXXXX` of the FEIN validator. -/
def feinPat (cs : List Char) : Bool :=
  match cs with
  | [a, b, '-', c, d, e, f, g, h, i] => [a, b, c, d, e, f, g, h, i].all Char.isDigit
  | _ => false

/-- The `fein` validator: `/^\d{2}-\d{7}$/.test(v.trim())`. -/
def feinValidation : JVal → Bool
  | .str s => feinPat (jsTrim s).data
  | _ => false

/-- Exactly `n` characters, all digits. -/
def allDigits (n : ℕ) (cs : List Char) : Bool :=
  cs.length = n ∧ cs.all Char.isDigit

/-- The `sic` validator: `isEmpty(v) || /^\d{4}$/.test(v.trim())`.  In JS,
`v.trim()` on a non-string, non-empty value throws a TypeError; that branch
is modelled as `false`, and theorems about validation restrict `sic`/`naics`
values to strings or empty so they never depend on it. -/
def sicValidation (v : JVal) : Bool :=
  emptyJ v ||
    match v with
    | .str s => allDigits 4 (jsTrim s).data
    | _ => false

/-- The `naics` validator: `isEmpty(v) || /^\d{6}$/.test(v.trim())` (same
TypeError caveat as `sicValidation`). -/
def naicsValidation (v : JVal) : Bool :=
  emptyJ v ||
    match v with
    | .str s => allDigits 6 (jsTrim s).data
    | _ => false

/-- `isNonNegativeNumber`: a (non-NaN) number that is `>= 0`. -/
def isNonNegativeNumber : JVal → Bool
  | .num q => 0 ≤ q
  | _ => false

/-- An entry of a select field's `options` list. -/
structure SelOpt where
  value : String
  label : String
deriving DecidableEq, Repr

def applicantBusinessTypeOptions : List SelOpt :=
  [⟨"Corporation", "Corporation"⟩, ⟨"Individual", "Individual"⟩,
   ⟨"Joint Venture", "Joint Venture"⟩, ⟨"LLC", "LLC"⟩,
   ⟨"Partnership", "Partnership"⟩, ⟨"Not For Profit Org", "Not For Profit Org"⟩,
   ⟨"Subchapter S Corporation", "Subchapter S Corporation"⟩, ⟨"Trust", "Trust"⟩]

def natureOfBusinessOptions : List SelOpt :=
  [⟨"Apartments", "Apartments"⟩, ⟨"Contractor", "Contractor"⟩,
   ⟨"Manufacturing", "Manufacturing"⟩, ⟨"Restaurant", "Restaurant"⟩,
   ⟨"Service", "Service"⟩, ⟨"Wholesale", "Wholesale"⟩,
   ⟨"Condominiums", "Condominiums"⟩, ⟨"Institutional", "Institutional"⟩,
   ⟨"Office", "Office"⟩, ⟨"Retail", "Retail"⟩]

def cityLimitsOptions : List SelOpt :=
  [⟨"Inside", "Inside City Limits"⟩, ⟨"Outside", "Outside City Limits"⟩]

/-- `isValidOption`: `!isEmpty(v) && options.some(opt => opt.value === v)`. -/
def isValidOption (opts : List SelOpt) (v : JVal) : Bool :=
  ¬emptyJ v ∧ opts.any fun o => v = .str o.value

/-- The closed field-type enum of the schema. -/
inductive FType where
  | text | textarea | number | email | date | select | checkbox
deriving DecidableEq, Repr

/-- One schema entry: key, label, type, required flag and validator
predicate (options are folded into the validator, as the code only reads
them there for validation purposes). -/
structure SchemaField where
  key : String
  label : String
  ftype : FType
  required : Bool
  validation : JVal → Bool

/-! The seventeen fields of `formSchema`, in declaration order. -/

def fPolicyEffDate : SchemaField := ⟨"policy_eff_date", "Proposed Eff. Date", .date, true, isIsoDateString⟩
def fPolicyExpDate : SchemaField := ⟨"policy_exp_date", "Proposed Exp. Date", .date, true, isIsoDateString⟩
def fLegalName : SchemaField := ⟨"legal_name", "Applicant Legal Name", .text, true, isNonEmptyString⟩
def fApplicantAddress : SchemaField :=
  ⟨"applicant_address", "Applicant Mailing Address", .textarea, true, minLenString 15⟩
def fBusinessPhone : SchemaField := ⟨"business_phone", "Applicant Business Phone", .text, true, isPhoneNumber⟩
def fApplicantEntityType : SchemaField :=
  ⟨"applicant_entity_type", "Applicant Entity Type", .select, true,
   isValidOption applicantBusinessTypeOptions⟩
def fFein : SchemaField := ⟨"fein", "FEIN", .text, true, feinValidation⟩
def fSic : SchemaField := ⟨"sic", "SIC Code", .text, false, sicValidation⟩
def fNaics : SchemaField := ⟨"naics", "NAICS Code", .text, false, naicsValidation⟩
def fContactName : SchemaField := ⟨"contact_name", "Primary Contact Name", .text, true, isNonEmptyString⟩
def fContactEmail : SchemaField := ⟨"contact_email", "Primary Contact Email", .email, true, isEmail⟩
def fContactPhone : SchemaField := ⟨"contact_phone", "Primary Contact Phone", .text, true, isPhoneNumber⟩
def fPremiseAddress : SchemaField :=
  ⟨"premise_address", "Primary Premise Address", .textarea, true, minLenString 15⟩
def fCityLimits : SchemaField :=
  ⟨"city_limits", "Premise City Limits", .select, true, isValidOption cityLimitsOptions⟩
def fAnnualRevenue : SchemaField :=
  ⟨"annual_revenue", "Annual Revenue ($)", .number, true, isNonNegativeNumber⟩
def fNatureOfBusiness : SchemaField :=
  ⟨"nature_of_business", "Nature of Business", .select, true,
   isValidOption natureOfBusinessOptions⟩
def fBusinessDescription : SchemaField :=
  ⟨"business_description", "Description of Operations", .textarea, true, minLenString 10⟩

/-- `formSchema` of src/config/formSchema.js: the Schema Registry, in
declaration order. -/
def formSchema : List SchemaField :=
  [fPolicyEffDate, fPolicyExpDate, fLegalName, fApplicantAddress, fBusinessPhone,
   fApplicantEntityType, fFein, fSic, fNaics, fContactName, fContactEmail,
   fContactPhone, fPremiseAddress, fCityLimits, fAnnualRevenue,
   fNatureOfBusiness, fBusinessDescription]

/-- The ordered key set of the Schema Registry. -/
def schemaKeys : List String := formSchema.map (·.key)

/-- `formSchema[key]` as the code reads it: the first (only) field with the
given key. -/
def findField (k : String) : Option SchemaField :=
  formSchema.find? fun f => f.key = k

/-- The initialization loop of the extract-data handler (lines 79–83):
every schema key, defaulted to `false` for checkboxes and `null` otherwise;
generic in the schema so the gap-analysis example can reuse it. -/
def genInit (schema : List SchemaField) : JMap :=
  schema.map fun f => (f.key, if f.ftype = .checkbox then JVal.bool false else JVal.null)

/-- The initialized `extractedData` object over `formSchema`. -/
def initMap : JMap := genInit formSchema

/-! ## Rule-based extraction (src/lib/extractionService.js, `extractWithRules`) -/

/-- The nested-path getter `get(obj, path, null)` specialized to the
depth-one paths `extractWithRules` actually uses: a present key yields its
value, a missing key (or `undefined` result) yields the `null` default. -/
def get1 (sd : JMap) (k : String) : JVal :=
  (jlookup sd k).getD .null

/-- `if (cond) { results[k] = v }`. -/
def addIf (m : JMap) (c : Bool) (k : String) (v : JVal) : JMap :=
  if c then setK m k v else m

/-- A match of `/(\d{2}-\d{7})/` starting at the head of the list: ten
characters `dd-ddddddd`. -/
def feinAt (cs : List Char) : Option String :=
  match cs with
  | a :: b :: '-' :: c :: d :: e :: f :: g :: h :: i :: _ =>
      if [a, b, c, d, e, f, g, h, i].all Char.isDigit then
        some ⟨[a, b, '-', c, d, e, f, g, h, i]⟩
      else none
  | _ => none

/-- `transcript.match(/(\d{2}-\d{7})/)`: the leftmost match, if any. -/
def feinScanL : List Char → Option String
  | [] => none
  | c :: rest =>
      match feinAt (c :: rest) with
      | some m => some m
      | none => feinScanL rest

def feinScan (s : String) : Option String := feinScanL s.data

/-- The transcript loop of `extractWithRules` (lines 143–151): first
transcript whose leftmost FEIN-shaped match also passes the `fein`
validator wins (`break`); a failing match moves on to the next
transcript. -/
def feinLoop (r : JMap) : List String → JMap
  | [] => r
  | t :: rest =>
      match feinScan t with
      | some m =>
          if m ≠ "" ∧ feinValidation (.str m) then setK r "fein" (.str m)
          else feinLoop r rest
      | none => feinLoop r rest

/-- Lines 67–71: direct map of `legal_name`. -/
def legalStep (sd : JMap) (r : JMap) : JMap :=
  let v := get1 sd "legal_name"
  addIf r (truthy v && isNonEmptyString v) "legal_name" v

/-- Lines 74–78: direct map of `contact_email`. -/
def emailStep (sd : JMap) (r : JMap) : JMap :=
  let v := get1 sd "contact_email"
  addIf r (truthy v && isEmail v) "contact_email" v

/-- Lines 81–85: direct map of `applicant_address`. -/
def addrStep (sd : JMap) (r : JMap) : JMap :=
  let v := get1 sd "applicant_address"
  addIf r (truthy v && minLenString 15 v) "applicant_address" v

/-- Lines 87–94: direct map of `premise_address`, defaulting to the already
accepted `applicant_address` when no valid premise address is found. -/
def premiseStep (sd : JMap) (r : JMap) : JMap :=
  let pa := get1 sd "premise_address"
  if truthy pa && minLenString 15 pa then setK r "premise_address" pa
  else
    match jlookup r "applicant_address" with
    | some aa => if truthy aa then setK r "premise_address" aa else r
    | none => r

/-- Lines 97–104: `annual_revenue`, parsed with the service's
`parseNumeric`, then validated. -/
def revStep (sd : JMap) (r : JMap) : JMap :=
  let rv := get1 sd "annual_revenue"
  if rv ≠ .null then
    match parseNumericSvc rv with
    | some q => addIf r (isNonNegativeNumber (.num q)) "annual_revenue" (.num q)
    | none => r
  else r

/-- Lines 107–111: `sic`, validated and stored as `String(sic).trim()`. -/
def sicStep (sd : JMap) (r : JMap) : JMap :=
  let v := get1 sd "sic"
  addIf r (truthy v && sicValidation (.str (jsTrim (jsToString v))))
    "sic" (.str (jsTrim (jsToString v)))

/-- Lines 112–116: `naics`, validated and stored as `String(naics).trim()`. -/
def naicsStep (sd : JMap) (r : JMap) : JMap :=
  let v := get1 sd "naics"
  addIf r (truthy v && naicsValidation (.str (jsTrim (jsToString v))))
    "naics" (.str (jsTrim (jsToString v)))

/-- Lines 119–123: direct map of `contact_name`. -/
def cnameStep (sd : JMap) (r : JMap) : JMap :=
  let v := get1 sd "contact_name"
  addIf r (truthy v && isNonEmptyString v) "contact_name" v

/-- Lines 126–130: direct map of `contact_phone`. -/
def cphoneStep (sd : JMap) (r : JMap) : JMap :=
  let v := get1 sd "contact_phone"
  addIf r (truthy v && isPhoneNumber v) "contact_phone" v

/-- Lines 133–137: direct map of `business_phone`. -/
def bphoneStep (sd : JMap) (r : JMap) : JMap :=
  let v := get1 sd "business_phone"
  addIf r (truthy v && isPhoneNumber v) "business_phone" v

/-- Lines 142–152: the FEIN transcript scan, guarded by `!results.fein`. -/
def feinStep (ts : List String) (r : JMap) : JMap :=
  match jlookup r "fein" with
  | some v => if truthy v then r else feinLoop r ts
  | none => feinLoop r ts

/-- `extractWithRules(structuredData, transcripts, formSchema)`
(src/lib/extractionService.js lines 60–159): the steps above in source
order, starting from the empty `results` object. -/
def extractWithRules (sd : JMap) (ts : List String) : JMap :=
  feinStep ts (bphoneStep sd (cphoneStep sd (cnameStep sd (naicsStep sd
    (sicStep sd (revStep sd (premiseStep sd (addrStep sd (emailStep sd
      (legalStep sd []))))))))))

/-! ## The extract-data handler pipeline (src/pages/api/extract-data.js) -/

/-- The rules-merge loop (lines 92–96): copy every non-null (the model has
no `undefined`) rule result over the initialized map. -/
def mergeNonNull (m : JMap) (r : JMap) : JMap :=
  r.foldl (fun acc kv => if kv.2 != JVal.null then setK acc kv.1 kv.2 else acc) m

/-- `isMissing` of the gap-analysis loop (line 105): present value `null`,
`''`, or `false` on a checkbox field; an absent key (JS `undefined`) is not
missing under `===` comparison. -/
def isMissingO (v : Option JVal) (t : FType) : Bool :=
  v = some JVal.null || v = some (JVal.str "") ||
    (t = FType.checkbox && v = some (JVal.bool false))

/-- The gap analysis (lines 100–111) over an arbitrary schema: the fields
whose current value `isMissing`. -/
def genRemaining (schema : List SchemaField) (m : JMap) : List SchemaField :=
  schema.filter fun f => isMissingO (jlookup m f.key) f.ftype

/-- `extractedData` after init and the rules merge. -/
def mergedRules (sd : JMap) (ts : List String) : JMap :=
  mergeNonNull initMap (extractWithRules sd ts)

/-- `fieldsToFillByLLM` / the keys of `remainingSchema`. -/
def remainingKeys (sd : JMap) (ts : List String) : List String :=
  (genRemaining formSchema (mergedRules sd ts)).map (·.key)

/-- The LLM-merge loop (lines 124–128): copy a candidate only when non-null
and a key of `remainingSchema`. -/
def llmMerge (m : JMap) (llm : JMap) (rem : List String) : JMap :=
  llm.foldl
    (fun acc kv =>
      if kv.2 != JVal.null && rem.contains kv.1 then setK acc kv.1 kv.2 else acc) m

/-- `extractedData` after the LLM stage (lines 113–131): merged only when
some field was remaining. -/
def preCleanup (sd : JMap) (ts : List String) (llm : JMap) : JMap :=
  let m1 := mergedRules sd ts
  let rem := remainingKeys sd ts
  if rem.isEmpty then m1 else llmMerge m1 llm rem

/-- The checkbox branch of the final-cleanup loop (lines 150–158): `null`
defaults to `false`, anything else is tested against the truthy list
`['true','yes','1','on']` — every other value, including the falsy-set
words and unrecognized strings, becomes `false`. -/
def cleanupCheckbox (v : JVal) : JVal :=
  match v with
  | .null => .bool false
  | v => .bool (decide (jsTrim (jsLower (jsToString v)) ∈ ["true", "yes", "1", "on"]))

/-- The per-field final-cleanup transform (lines 136–172): numbers are
re-parsed with the route's own `parseNumeric` (null on failure), checkboxes
via `cleanupCheckbox`, text-like strings trimmed; `date` and `select`
values pass through untouched. -/
def cleanupVal (f : SchemaField) (v : JVal) : JVal :=
  match f.ftype with
  | .number =>
      if v = .null then v
      else
        match parseNumericED (.str (jsToString v)) with
        | some q => .num q
        | none => .null
  | .checkbox => cleanupCheckbox v
  | .text | .textarea | .email =>
      match v with
      | .str s => .str (jsTrim s)
      | _ => v
  | _ => v

/-- The final-cleanup loop over the whole map (keys outside the schema are
left untouched, matching the `if (formSchema[key])` guard). -/
def cleanup (m : JMap) : JMap :=
  m.map fun kv =>
    match findField kv.1 with
    | some f => (kv.1, cleanupVal f kv.2)
    | none => kv

/-- The full extraction run of the extract-data handler, from request body
to the returned field map, with the LLM stage's returned candidate map as a
parameter (the network call itself is modelled in `extractWithLLM`). -/
def handlerExtract (sd : JMap) (ts : List String) (llm : JMap) : JMap :=
  cleanup (preCleanup sd ts llm)

/-! ## The LLM fallback stage (src/lib/extractionService.js, `extractWithLLM`) -/

/-- A part of a Gemini candidate's content. -/
inductive GeminiPart where
  | functionCall (name : String) (args : JMap)
  | text (t : String)
deriving DecidableEq, Repr

/-- The first (only) response candidate: its content parts (`none` models a
missing `content`/`parts`) and its finish reason. -/
structure GeminiCandidate where
  parts : Option (List GeminiPart)
  finishReason : Option String
deriving DecidableEq, Repr

/-- Outcome of the external Gemini call: the transport/service threw, or a
response with an optional first candidate. -/
inductive GeminiResult where
  | error
  | response (cand : Option GeminiCandidate)
deriving DecidableEq, Repr

/-- `part.functionCall` is present (the `find?` predicate of line 314). -/
def isFnCallPart : GeminiPart → Bool
  | .functionCall _ _ => true
  | _ => false

/-- The `try` block of `extractWithLLM` (lines 272–327): `Except.error`
models a thrown exception (service error, or the explicit throw on a
`SAFETY` finish reason), `Except.ok` a normal return. -/
def llmTryBody (resp : GeminiResult) : Except String JMap :=
  match resp with
  | .error => .error "service error"
  | .response cand =>
      let fr := cand.bind (·.finishReason)
      match cand.bind (·.parts) with
      | none => if fr = some "SAFETY" then .error "safety" else .ok []
      | some [] => if fr = some "SAFETY" then .error "safety" else .ok []
      | some parts =>
          match parts.find? isFnCallPart with
          | some (.functionCall n args) =>
              if n = "populateFormFields" then .ok args else .ok []
          | _ => .ok []

/-- `extractWithLLM(structuredData, transcripts, remainingSchema)`
(lines 215–339), with the environment credential and the external call's
outcome as parameters.  The function is total — the `catch` block turns
every thrown error into an empty map, so no exception reaches the caller. -/
def extractWithLLM (remaining : List String) (apiKey : Option String)
    (resp : GeminiResult) : JMap :=
  if remaining.isEmpty then []
  else
    match apiKey with
    | none => []
    | some _ =>
        match llmTryBody resp with
        | .ok m => m
        | .error _ => []

/-- Whether the control flow of `extractWithLLM` reaches the external model
call: only with a non-empty remaining schema and a configured credential. -/
def llmCallsModel (remaining : List String) (apiKey : Option String) : Bool :=
  !remaining.isEmpty && apiKey.isSome

/-! ## The voice-update gate
(src/pages/api/process-voice.js, `parseTranscriptWithFunctionCalling`,
`updateFormField` case, lines 144–232) -/

/-- Result of the `updateFormField` case: an accepted UPDATE carrying the
coerced value, or an AMBIGUOUS rejection (coercion or validation failed, or
the field is unknown). -/
inductive VoiceOut where
  | update (field : String) (value : JVal)
  | ambiguous
deriving DecidableEq, Repr

/-- The checkbox coercion of the voice path (lines 178–188):
`String(value).toLowerCase().trim()` against the fixed truthy and falsy
sets; anything else throws (`none`). -/
def voiceCheckboxCoerce (value : JVal) : Option Bool :=
  let lowerVal := jsTrim (jsLower (jsToString value))
  if lowerVal ∈ ["true", "yes", "on", "1", "affirmative", "checked"] then some true
  else if lowerVal ∈ ["false", "no", "off", "0", "negative", "unchecked"] then some false
  else none

/-- The number coercion of the voice path (lines 159–177): trim, lower-case,
digit-word map, strip `$`, `,` and literal spaces (`/[$, ]/g` — not `\s`),
then `parseFloat`; `NaN` throws (`none`).  Unlike `parseNumericSvc` there is
no trailing-`k`/`m` multiplier step.  (The `num_vehicles` integrality check
is dead code: no such field exists in `formSchema`.) -/
def voiceNumCoerce (s : String) : Option ℚ :=
  jsParseFloat (stripVoiceChars (wordMapped s))

/-- The validated `updateFormField` intent mapping: per-type coercion, then
the field's schema validator; failures return AMBIGUOUS (no UPDATE is
emitted). -/
def voiceUpdate (fieldName : String) (value : JVal) : VoiceOut :=
  match findField fieldName with
  | none => .ambiguous
  | some f =>
      match f.ftype with
      | .number =>
          match voiceNumCoerce (jsToString value) with
          | none => .ambiguous
          | some q =>
              if f.validation (.num q) then .update fieldName (.num q) else .ambiguous
      | .checkbox =>
          match voiceCheckboxCoerce value with
          | none => .ambiguous
          | some b =>
              if f.validation (.bool b) then .update fieldName (.bool b) else .ambiguous
      | _ =>
          let sv := JVal.str (jsTrim (jsToString value))
          if f.validation sv then .update fieldName sv else .ambiguous

/-! ## Validation (src/config/formSchema.js, `validateAcord125Data`) -/

/-- The specific error message chosen for a populated field that fails its
validator (lines 220–227), branch for branch. -/
def specificError (f : SchemaField) (v : JVal) : String :=
  if f.key = "fein" then "Invalid " ++ f.label ++ ". Format: XX-XXXXXXX"
  else if f.key = "policy_eff_date" ∨ f.key = "policy_exp_date" then
    "Invalid date format for " ++ f.label ++ ". Use YYYY-MM-DD."
  else if f.ftype = .email then "Invalid " ++ f.label ++ " format."
  else if f.ftype = .number ∧ ¬isNonNegativeNumber v then
    f.label ++ " must be a non-negative number."
  else if f.key = "applicant_address" ∨ f.key = "premise_address" then
    f.label ++ " must be at least 15 characters."
  else if f.key = "business_description" then
    f.label ++ " must be at least 10 characters."
  else if f.ftype = .select then "Invalid selection for " ++ f.label ++ "."
  else "Invalid value for " ++ f.label ++ "."

/-- One iteration of the `validateAcord125Data` loop: a required empty field
records "<Label> is required" and skips further checks; a populated field
failing its validator records its specific error; each error also clears the
`isValid` flag. -/
def validateStep (fd : JMap) (acc : Bool × List (String × String)) (f : SchemaField) :
    Bool × List (String × String) :=
  let v := jlookup fd f.key
  if f.required && isEmptyO v then
    (false, acc.2 ++ [(f.key, f.label ++ " is required")])
  else
    match v with
    | some jv =>
        if !emptyJ jv && !f.validation jv then
          (false, acc.2 ++ [(f.key, specificError f jv)])
        else acc
    | none => acc

/-- `validateAcord125Data(formData)` (src/config/formSchema.js
lines 198–234): the `(isValid, errors)` pair after walking every schema
field. -/
def validateAcord125Data (fd : JMap) : Bool × List (String × String) :=
  formSchema.foldl (validateStep fd) (true, [])

/-- Lookup in an error report (JS `errors[fieldName]`). -/
def alookup {α : Type} : List (String × α) → String → Option α
  | [], _ => none
  | (k', v) :: rest, k => if k' = k then some v else alookup rest k

/-! ## Map lemmas -/

theorem jlookup_cons (k' : String) (v : JVal) (rest : JMap) (k : String) :
    jlookup ((k', v) :: rest) k = if k' = k then some v else jlookup rest k := rfl

theorem jlookup_setK_self (m : JMap) (k : String) (v : JVal) :
    jlookup (setK m k v) k = some v := by
  induction m with
  | nil => simp [setK, jlookup]
  | cons kv rest ih =>
      obtain ⟨k', v'⟩ := kv
      by_cases h : k' = k
      · subst h; simp [setK, jlookup]
      · simp [setK, jlookup, h, ih]

theorem jlookup_setK_ne (m : JMap) {k' k : String} (v : JVal) (h : k' ≠ k) :
    jlookup (setK m k' v) k = jlookup m k := by
  induction m with
  | nil => simp [setK, jlookup, h]
  | cons kv rest ih =>
      obtain ⟨k₀, v₀⟩ := kv
      by_cases h0 : k₀ = k'
      · subst h0; simp [setK, jlookup, h]
      · simp only [setK, if_neg h0]
        by_cases h1 : k₀ = k
        · subst h1; simp [jlookup]
        · simp [jlookup, h1, ih]

theorem jlookup_addIf_ne (m : JMap) (c : Bool) {k' k : String} (v : JVal) (h : k' ≠ k) :
    jlookup (addIf m c k' v) k = jlookup m k := by
  unfold addIf
  split
  · exact jlookup_setK_ne m v h
  · rfl

theorem isSome_jlookup_setK (m : JMap) (k' k : String) (v : JVal)
    (h : (jlookup m k).isSome) : (jlookup (setK m k' v) k).isSome := by
  by_cases hk : k' = k
  · subst hk; rw [jlookup_setK_self]; rfl
  · rw [jlookup_setK_ne m v hk]; exact h

theorem mem_keys_setK (m : JMap) (k' k : String) (v : JVal) :
    k ∈ (setK m k' v).map Prod.fst ↔ k ∈ m.map Prod.fst ∨ k = k' := by
  induction m with
  | nil => simp [setK, eq_comm]
  | cons kv rest ih =>
      obtain ⟨k₀, v₀⟩ := kv
      by_cases h0 : k₀ = k'
      · subst h0
        simp [setK]
        tauto
      · simp only [setK, if_neg h0, List.map_cons, List.mem_cons, ih]
        tauto

theorem nodup_keys_setK (m : JMap) (k : String) (v : JVal)
    (h : (m.map Prod.fst).Nodup) : ((setK m k v).map Prod.fst).Nodup := by
  induction m with
  | nil => simp [setK]
  | cons kv rest ih =>
      obtain ⟨k₀, v₀⟩ := kv
      simp only [List.map_cons, List.nodup_cons] at h
      by_cases h0 : k₀ = k
      · subst h0; simpa [setK] using h
      · simp only [setK, if_neg h0, List.map_cons, List.nodup_cons]
        refine ⟨fun hc => ?_, ih h.2⟩
        rcases (mem_keys_setK rest k k₀ v).mp hc with hm | he
        · exact h.1 hm
        · exact h0 he

theorem nodup_keys_addIf (m : JMap) (c : Bool) (k : String) (v : JVal)
    (h : (m.map Prod.fst).Nodup) : ((addIf m c k v).map Prod.fst).Nodup := by
  unfold addIf
  split
  · exact nodup_keys_setK m k v h
  · exact h

theorem jlookup_eq_none_iff (m : JMap) (k : String) :
    jlookup m k = none ↔ k ∉ m.map Prod.fst := by
  induction m with
  | nil => simp [jlookup]
  | cons kv rest ih =>
      obtain ⟨k₀, v₀⟩ := kv
      by_cases h0 : k₀ = k
      · subst h0; simp [jlookup]
      · simp [jlookup, h0, ih, Ne.symm h0]

/-! Lemmas about the shared merge-loop shape of `mergeNonNull` and
`llmMerge`. -/

theorem mergeIf_cons (P : String × JVal → Bool) (m : JMap) (kv : String × JVal) (r : JMap) :
    (kv :: r).foldl (fun acc kv => if P kv then setK acc kv.1 kv.2 else acc) m =
      r.foldl (fun acc kv => if P kv then setK acc kv.1 kv.2 else acc)
        (if P kv then setK m kv.1 kv.2 else m) := rfl

theorem jlookup_mergeFold_absent (P : String × JVal → Bool) (r : JMap) (k : String)
    (h : jlookup r k = none) :
    ∀ m, jlookup (r.foldl (fun acc kv => if P kv then setK acc kv.1 kv.2 else acc) m) k =
      jlookup m k := by
  induction r with
  | nil => intro m; rfl
  | cons kv rest ih =>
      intro m
      obtain ⟨k₀, v₀⟩ := kv
      have hk : k₀ ≠ k := by
        intro e; rw [jlookup_cons, if_pos e] at h; exact Option.noConfusion h
      have ht : jlookup rest k = none := by rwa [jlookup_cons, if_neg hk] at h
      rw [mergeIf_cons, ih ht]
      dsimp only
      split
      · exact jlookup_setK_ne m v₀ hk
      · rfl

theorem jlookup_mergeFold_skip (P : String × JVal → Bool) (r : JMap) (k : String)
    (hP : ∀ v, P (k, v) = false) :
    ∀ m, jlookup (r.foldl (fun acc kv => if P kv then setK acc kv.1 kv.2 else acc) m) k =
      jlookup m k := by
  induction r with
  | nil => intro m; rfl
  | cons kv rest ih =>
      intro m
      obtain ⟨k₀, v₀⟩ := kv
      rw [mergeIf_cons, ih]
      dsimp only
      by_cases hk : k₀ = k
      · subst hk; rw [hP v₀]; simp
      · split
        · exact jlookup_setK_ne m v₀ hk
        · rfl

theorem jlookup_mergeFold_some (P : String × JVal → Bool) (r : JMap) (k : String) :
    (r.map Prod.fst).Nodup → ∀ v, jlookup r k = some v →
    ∀ m, jlookup (r.foldl (fun acc kv => if P kv then setK acc kv.1 kv.2 else acc) m) k =
      if P (k, v) then some v else jlookup m k := by
  induction r with
  | nil => intro _ v h; simp [jlookup] at h
  | cons kv rest ih =>
      intro hnd v h m
      obtain ⟨k₀, v₀⟩ := kv
      simp only [List.map_cons, List.nodup_cons] at hnd
      by_cases hk : k₀ = k
      · subst hk
        rw [jlookup_cons, if_pos rfl] at h
        obtain rfl : v = v₀ := (Option.some.inj h).symm
        have hrest : jlookup rest k₀ = none := (jlookup_eq_none_iff rest k₀).mpr hnd.1
        rw [mergeIf_cons, jlookup_mergeFold_absent P rest k₀ hrest]
        dsimp only
        by_cases hP : P (k₀, v) = true
        · rw [if_pos hP, if_pos hP]
          exact jlookup_setK_self m k₀ v
        · rw [if_neg hP, if_neg hP]
      · rw [jlookup_cons, if_neg hk] at h
        rw [mergeIf_cons, ih hnd.2 v h]
        dsimp only
        by_cases hP : P (k₀, v₀) = true
        · rw [if_pos hP, jlookup_setK_ne m v₀ hk]
        · rw [if_neg hP]

theorem isSome_jlookup_mergeFold (P : String × JVal → Bool) (r : JMap) (k : String) :
    ∀ m, (jlookup m k).isSome →
      (jlookup (r.foldl (fun acc kv => if P kv then setK acc kv.1 kv.2 else acc) m) k).isSome := by
  induction r with
  | nil => intro m h; exact h
  | cons kv rest ih =>
      intro m h
      obtain ⟨k₀, v₀⟩ := kv
      rw [mergeIf_cons]
      apply ih
      dsimp only
      split
      · exact isSome_jlookup_setK m k₀ k v₀ h
      · exact h

theorem jlookup_cleanup (m : JMap) (k : String) :
    jlookup (cleanup m) k = (jlookup m k).map fun v =>
      match findField k with
      | some f => cleanupVal f v
      | none => v := by
  induction m with
  | nil => rfl
  | cons kv rest ih =>
      obtain ⟨k₀, v₀⟩ := kv
      by_cases h : k₀ = k
      · subst h
        cases hf : findField k₀ <;>
          simp [cleanup, jlookup, hf]
      · cases hf : findField k₀ <;>
          simp [cleanup, jlookup, h, hf] <;>
          simpa [cleanup] using ih

theorem jlookup_genInit_isSome (schema : List SchemaField) (f : SchemaField)
    (hf : f ∈ schema) : (jlookup (genInit schema) f.key).isSome := by
  induction schema with
  | nil => cases hf
  | cons g rest ih =>
      by_cases hk : g.key = f.key
      · simp [genInit, jlookup, hk]
      · rcases List.mem_cons.mp hf with rfl | hmem
        · exact absurd rfl hk
        · simpa [genInit, jlookup, hk] using ih hmem

theorem jlookup_genInit_of_nodup (schema : List SchemaField)
    (hnd : (schema.map (·.key)).Nodup) (f : SchemaField) (hf : f ∈ schema) :
    jlookup (genInit schema) f.key =
      some (if f.ftype = .checkbox then JVal.bool false else JVal.null) := by
  induction schema with
  | nil => cases hf
  | cons g rest ih =>
      simp only [List.map_cons, List.nodup_cons] at hnd
      rcases List.mem_cons.mp hf with rfl | hmem
      · simp [genInit, jlookup]
      · have hk : g.key ≠ f.key := by
          intro e
          exact hnd.1 (e ▸ List.mem_map_of_mem (fun x => x.key) hmem)
        simpa [genInit, jlookup, hk] using ih hnd.2 hmem

theorem find?_key_of_nodup (schema : List SchemaField)
    (hnd : (schema.map (·.key)).Nodup) (f : SchemaField) (hf : f ∈ schema) :
    (schema.find? fun g => g.key = f.key) = some f := by
  induction schema with
  | nil => cases hf
  | cons g rest ih =>
      simp only [List.map_cons, List.nodup_cons] at hnd
      rcases List.mem_cons.mp hf with rfl | hmem
      · simp [List.find?]
      · have hk : g.key ≠ f.key := by
          intro e
          exact hnd.1 (e ▸ List.mem_map_of_mem (fun x => x.key) hmem)
        rw [List.find?_cons_of_neg _ (by simpa using hk)]
        exact ih hnd.2 hmem

/-- The seventeen schema keys are pairwise distinct. -/
theorem schemaKeys_nodup : (formSchema.map (·.key)).Nodup := by decide

/-- `formSchema` declares no checkbox field. -/
theorem formSchema_no_checkbox (f : SchemaField) (hf : f ∈ formSchema) :
    f.ftype ≠ .checkbox := by
  have hall : formSchema.all (fun g => g.ftype ≠ .checkbox) = true := by decide
  simpa using List.all_eq_true.mp hall f hf

theorem findField_eq_of_mem (f : SchemaField) (hf : f ∈ formSchema) :
    findField f.key = some f :=
  find?_key_of_nodup formSchema schemaKeys_nodup f hf

/-! ## Per-step lemmas about the rule extractor -/

theorem jlookup_feinLoop_ne (r : JMap) (ts : List String) {k : String} (h : k ≠ "fein") :
    jlookup (feinLoop r ts) k = jlookup r k := by
  induction ts with
  | nil => rfl
  | cons t rest ih =>
      cases hscan : feinScan t with
      | none => simpa [feinLoop, hscan] using ih
      | some m =>
          simp only [feinLoop, hscan]
          split
          · exact jlookup_setK_ne r _ (Ne.symm h)
          · exact ih

theorem jlookup_legalStep_ne (sd : JMap) (r : JMap) {k : String} (h : k ≠ "legal_name") :
    jlookup (legalStep sd r) k = jlookup r k :=
  jlookup_addIf_ne r _ _ (Ne.symm h)

theorem jlookup_emailStep_ne (sd : JMap) (r : JMap) {k : String} (h : k ≠ "contact_email") :
    jlookup (emailStep sd r) k = jlookup r k :=
  jlookup_addIf_ne r _ _ (Ne.symm h)

theorem jlookup_addrStep_ne (sd : JMap) (r : JMap) {k : String} (h : k ≠ "applicant_address") :
    jlookup (addrStep sd r) k = jlookup r k :=
  jlookup_addIf_ne r _ _ (Ne.symm h)

theorem jlookup_premiseStep_ne (sd : JMap) (r : JMap) {k : String} (h : k ≠ "premise_address") :
    jlookup (premiseStep sd r) k = jlookup r k := by
  unfold premiseStep
  dsimp only
  by_cases hc : (truthy (get1 sd "premise_address") &&
      minLenString 15 (get1 sd "premise_address")) = true
  · rw [if_pos hc]
    exact jlookup_setK_ne r _ (Ne.symm h)
  · rw [if_neg hc]
    cases jlookup r "applicant_address" with
    | none => rfl
    | some aa =>
        dsimp only
        split
        · exact jlookup_setK_ne r _ (Ne.symm h)
        · rfl

theorem jlookup_revStep_ne (sd : JMap) (r : JMap) {k : String} (h : k ≠ "annual_revenue") :
    jlookup (revStep sd r) k = jlookup r k := by
  unfold revStep
  dsimp only
  by_cases hc : get1 sd "annual_revenue" ≠ JVal.null
  · rw [if_pos hc]
    cases parseNumericSvc (get1 sd "annual_revenue") with
    | none => rfl
    | some q => exact jlookup_addIf_ne r _ _ (Ne.symm h)
  · rw [if_neg hc]

theorem jlookup_sicStep_ne (sd : JMap) (r : JMap) {k : String} (h : k ≠ "sic") :
    jlookup (sicStep sd r) k = jlookup r k :=
  jlookup_addIf_ne r _ _ (Ne.symm h)

theorem jlookup_naicsStep_ne (sd : JMap) (r : JMap) {k : String} (h : k ≠ "naics") :
    jlookup (naicsStep sd r) k = jlookup r k :=
  jlookup_addIf_ne r _ _ (Ne.symm h)

theorem jlookup_cnameStep_ne (sd : JMap) (r : JMap) {k : String} (h : k ≠ "contact_name") :
    jlookup (cnameStep sd r) k = jlookup r k :=
  jlookup_addIf_ne r _ _ (Ne.symm h)

theorem jlookup_cphoneStep_ne (sd : JMap) (r : JMap) {k : String} (h : k ≠ "contact_phone") :
    jlookup (cphoneStep sd r) k = jlookup r k :=
  jlookup_addIf_ne r _ _ (Ne.symm h)

theorem jlookup_bphoneStep_ne (sd : JMap) (r : JMap) {k : String} (h : k ≠ "business_phone") :
    jlookup (bphoneStep sd r) k = jlookup r k :=
  jlookup_addIf_ne r _ _ (Ne.symm h)

theorem jlookup_feinStep_ne (ts : List String) (r : JMap) {k : String} (h : k ≠ "fein") :
    jlookup (feinStep ts r) k = jlookup r k := by
  unfold feinStep
  split
  · split
    · rfl
    · exact jlookup_feinLoop_ne r ts h
  · exact jlookup_feinLoop_ne r ts h

theorem nodup_keys_feinLoop (r : JMap) (ts : List String)
    (h : (r.map Prod.fst).Nodup) : ((feinLoop r ts).map Prod.fst).Nodup := by
  induction ts with
  | nil => exact h
  | cons t rest ih =>
      cases hscan : feinScan t with
      | none => simpa [feinLoop, hscan] using ih
      | some m =>
          simp only [feinLoop, hscan]
          split
          · exact nodup_keys_setK r _ _ h
          · exact ih

theorem nodup_keys_premiseStep (sd : JMap) (r : JMap)
    (h : (r.map Prod.fst).Nodup) : ((premiseStep sd r).map Prod.fst).Nodup := by
  unfold premiseStep
  dsimp only
  by_cases hc : (truthy (get1 sd "premise_address") &&
      minLenString 15 (get1 sd "premise_address")) = true
  · rw [if_pos hc]
    exact nodup_keys_setK r _ _ h
  · rw [if_neg hc]
    cases jlookup r "applicant_address" with
    | none => exact h
    | some aa =>
        dsimp only
        split
        · exact nodup_keys_setK r _ _ h
        · exact h

theorem nodup_keys_revStep (sd : JMap) (r : JMap)
    (h : (r.map Prod.fst).Nodup) : ((revStep sd r).map Prod.fst).Nodup := by
  unfold revStep
  dsimp only
  by_cases hc : get1 sd "annual_revenue" ≠ JVal.null
  · rw [if_pos hc]
    cases parseNumericSvc (get1 sd "annual_revenue") with
    | none => exact h
    | some q => exact nodup_keys_addIf r _ _ _ h
  · rw [if_neg hc]
    exact h

theorem nodup_keys_feinStep (ts : List String) (r : JMap)
    (h : (r.map Prod.fst).Nodup) : ((feinStep ts r).map Prod.fst).Nodup := by
  unfold feinStep
  split
  · split
    · exact h
    · exact nodup_keys_feinLoop r ts h
  · exact nodup_keys_feinLoop r ts h

theorem rulesKeys_nodup (sd : JMap) (ts : List String) :
    ((extractWithRules sd ts).map Prod.fst).Nodup := by
  unfold extractWithRules
  apply nodup_keys_feinStep
  apply nodup_keys_addIf
  apply nodup_keys_addIf
  apply nodup_keys_addIf
  apply nodup_keys_addIf
  apply nodup_keys_addIf
  apply nodup_keys_revStep
  apply nodup_keys_premiseStep
  apply nodup_keys_addIf
  apply nodup_keys_addIf
  apply nodup_keys_addIf
  exact List.nodup_nil

/-! ## Claim theorems -/

/-- C3: Number coercion. `parseNumeric` (extractionService) maps `"$1,200"`
to `1200`, `"1.2k"` to `1200`, `"two"` to `2`; it passes native numbers
through unchanged; every string whose cleaned form (lower-cased, trimmed,
digit-word substituted, stripped of `$`, `,` and whitespace) fails to parse
— e.g. `"abc"` — yields `null`; and a trailing `k`/`m` on the original
trimmed string multiplies the parsed value by 1 000 / 1 000 000. -/
theorem C3_parseNumeric_coercion :
    parseNumericSvc (.str "$1,200") = some 1200 ∧
    parseNumericSvc (.str "1.2k") = some 1200 ∧
    parseNumericSvc (.str "two") = some 2 ∧
    (∀ q : ℚ, parseNumericSvc (.num q) = some q) ∧
    parseNumericSvc (.str "abc") = none ∧
    (∀ s : String, jsParseFloat (cleanedSvc s) = none → parseNumericSvc (.str s) = none) ∧
    (∀ s : String, ∀ q : ℚ, jsParseFloat (cleanedSvc s) = some q →
      (lastCharKM (jsTrim s) = some 'k' → parseNumericSvc (.str s) = some (q * 1000)) ∧
      (lastCharKM (jsTrim s) = some 'm' → parseNumericSvc (.str s) = some (q * 1000000))) := by
  refine ⟨by decide, by decide, by decide, fun q => rfl, by decide, ?_, ?_⟩
  · intro s h
    simp only [parseNumericSvc]
    split
    · rfl
    · rw [h]
  · intro s q h
    have hne : ¬cleanedSvc s = "" := by
      intro e
      rw [e, (by decide : jsParseFloat "" = (none : Option ℚ))] at h
      exact Option.noConfusion h
    constructor
    · intro hk
      simp only [parseNumericSvc, if_neg hne, h]
      unfold applyMult
      rw [if_neg (by rw [hk]; decide), if_pos hk, qMulInt_eq]
      norm_num
    · intro hm
      simp only [parseNumericSvc, if_neg hne, h]
      unfold applyMult
      rw [if_pos hm, qMulInt_eq]
      norm_num

/-- C4 counterexample: the claim says any input outside the truthy and
falsy sets is a coercion failure that rejects the field rather than
defaulting it to false, for every place checkbox coercion happens — but the
extract-data final cleanup (lines 150–158) maps `"maybe"` to `false`, not
to a failure. -/
theorem C4_counterexample_cleanup_defaults :
    voiceCheckboxCoerce (.str "maybe") = none ∧
    cleanupCheckbox (.str "maybe") = .bool false := by
  constructor <;> decide

/-- C4 (amended): the voice-path checkbox coercion behaves exactly as the
claim states — a case-insensitive match against the truthy set yields
`true`, against the falsy set `false`, and anything else (e.g. `"maybe"`)
is a failure (`"yes"` ↦ true, `"Off"` ↦ false); the extract-data final
cleanup instead tests only the truthy list `{true,yes,1,on}` and maps every
other value — falsy-set members and unrecognized inputs alike — to `false`,
never failing. -/
theorem C4_checkbox_coercion :
    (∀ v : JVal,
      (jsTrim (jsLower (jsToString v)) ∈ ["true", "yes", "on", "1", "affirmative", "checked"] →
        voiceCheckboxCoerce v = some true) ∧
      (jsTrim (jsLower (jsToString v)) ∈ ["false", "no", "off", "0", "negative", "unchecked"] →
        voiceCheckboxCoerce v = some false) ∧
      (jsTrim (jsLower (jsToString v)) ∉ ["true", "yes", "on", "1", "affirmative", "checked"] →
        jsTrim (jsLower (jsToString v)) ∉ ["false", "no", "off", "0", "negative", "unchecked"] →
        voiceCheckboxCoerce v = none)) ∧
    voiceCheckboxCoerce (.str "yes") = some true ∧
    voiceCheckboxCoerce (.str "Off") = some false ∧
    voiceCheckboxCoerce (.str "maybe") = none ∧
    (∀ v : JVal, cleanupCheckbox v =
      .bool (v ≠ .null ∧ jsTrim (jsLower (jsToString v)) ∈ ["true", "yes", "1", "on"])) := by
  refine ⟨fun v => ⟨?_, ?_, ?_⟩, by decide, by decide, by decide, fun v => ?_⟩
  · intro h
    simp [voiceCheckboxCoerce, h]
  · intro h
    have hnt : jsTrim (jsLower (jsToString v)) ∉
        ["true", "yes", "on", "1", "affirmative", "checked"] := by
      simp only [List.mem_cons, List.not_mem_nil, or_false] at h ⊢
      rcases h with h | h | h | h | h | h <;> rw [h] <;> decide
    simp [voiceCheckboxCoerce, h, hnt]
  · intro h1 h2
    simp [voiceCheckboxCoerce, h1, h2]
  · cases v with
    | null => simp [cleanupCheckbox]
    | str s =>
        by_cases h : jsTrim (jsLower (jsToString (JVal.str s))) ∈ ["true", "yes", "1", "on"] <;>
          simp [cleanupCheckbox, h]
    | num q =>
        by_cases h : jsTrim (jsLower (jsToString (JVal.num q))) ∈ ["true", "yes", "1", "on"] <;>
          simp [cleanupCheckbox, h]
    | bool b =>
        by_cases h : jsTrim (jsLower (jsToString (JVal.bool b))) ∈ ["true", "yes", "1", "on"] <;>
          simp [cleanupCheckbox, h]

/-- C6: LLM-stage soft failure. `extractWithLLM` returns an empty candidate
map — and, being total, propagates no exception — whenever the remaining
schema is empty (and then the external model is not called), no credential
is configured, the service errors, the response is malformed (no candidate,
no content parts, or no `populateFormFields` call), or the model stops with
a `SAFETY` content rejection (the inner throw is caught). -/
theorem C6_llm_soft_failure :
    (∀ (key : Option String) (resp : GeminiResult),
      extractWithLLM [] key resp = [] ∧ llmCallsModel [] key = false) ∧
    (∀ (rem : List String) (resp : GeminiResult), extractWithLLM rem none resp = []) ∧
    (∀ (rem : List String) (key : Option String), extractWithLLM rem key .error = []) ∧
    (∀ (rem : List String) (key : Option String),
      extractWithLLM rem key (.response none) = []) ∧
    (∀ (rem : List String) (key : Option String) (cand : GeminiCandidate),
      cand.parts = none ∨ cand.parts = some [] →
      extractWithLLM rem key (.response (some cand)) = []) ∧
    (∀ (rem : List String) (key : Option String),
      extractWithLLM rem key (.response (some ⟨none, some "SAFETY"⟩)) = []) ∧
    (∀ (rem : List String) (key : Option String) (fr : Option String)
        (parts : List GeminiPart) (n : String) (args : JMap),
      parts.find? isFnCallPart = some (.functionCall n args) → n ≠ "populateFormFields" →
      extractWithLLM rem key (.response (some ⟨some parts, fr⟩)) = []) ∧
    (∀ (rem : List String) (key : Option String) (fr : Option String)
        (parts : List GeminiPart),
      parts.find? isFnCallPart = none →
      extractWithLLM rem key (.response (some ⟨some parts, fr⟩)) = []) := by
  have hout : ∀ (rem : List String) (key : Option String) (resp : GeminiResult),
      (match llmTryBody resp with | .ok m => m | .error _ => ([] : JMap)) = [] →
      extractWithLLM rem key resp = [] := by
    intro rem key resp h
    unfold extractWithLLM
    split
    · rfl
    · cases key with
      | none => rfl
      | some _ => exact h
  refine ⟨fun key resp => ⟨by simp [extractWithLLM], rfl⟩,
          fun rem resp => ?_, fun rem key => ?_, fun rem key => ?_,
          fun rem key cand hc => ?_, fun rem key => ?_,
          fun rem key fr parts n args hfind hn => ?_,
          fun rem key fr parts hfind => ?_⟩
  · unfold extractWithLLM
    split
    · rfl
    · rfl
  · exact hout rem key _ rfl
  · exact hout rem key _ rfl
  · obtain ⟨ps, fr⟩ := cand
    apply hout
    rcases hc with rfl | rfl <;>
      · simp only [llmTryBody, Option.bind]
        by_cases hfr : fr = some "SAFETY" <;> simp [hfr]
  · exact hout rem key _ rfl
  · cases parts with
    | nil => simp [List.find?] at hfind
    | cons p rest =>
        apply hout
        simp only [llmTryBody, Option.bind]
        rw [hfind]
        simp [hn]
  · cases parts with
    | nil =>
        apply hout
        simp only [llmTryBody, Option.bind]
        by_cases hfr : fr = some "SAFETY" <;> simp [hfr]
    | cons p rest =>
        apply hout
        simp only [llmTryBody, Option.bind]
        rw [hfind]

/-- C10: premise-address defaulting in the Rule Extractor. When the
structured data holds a truthy `premise_address` passing its validator, it
is used; otherwise, whenever an `applicant_address` value was accepted into
the partial map, `premise_address` is set to exactly that value. -/
theorem C10_premise_address_defaulting (sd : JMap) (ts : List String) :
    ((truthy (get1 sd "premise_address") &&
        minLenString 15 (get1 sd "premise_address")) = true →
      jlookup (extractWithRules sd ts) "premise_address" =
        some (get1 sd "premise_address")) ∧
    ((truthy (get1 sd "premise_address") &&
        minLenString 15 (get1 sd "premise_address")) = false →
      ∀ aav : JVal, jlookup (extractWithRules sd ts) "applicant_address" = some aav →
        jlookup (extractWithRules sd ts) "premise_address" = some aav) := by
  have hred : jlookup (extractWithRules sd ts) "premise_address" =
      jlookup (premiseStep sd (addrStep sd (emailStep sd (legalStep sd []))))
        "premise_address" := by
    unfold extractWithRules
    rw [jlookup_feinStep_ne _ _ (by decide), jlookup_bphoneStep_ne _ _ (by decide),
        jlookup_cphoneStep_ne _ _ (by decide), jlookup_cnameStep_ne _ _ (by decide),
        jlookup_naicsStep_ne _ _ (by decide), jlookup_sicStep_ne _ _ (by decide),
        jlookup_revStep_ne _ _ (by decide)]
  have haddr : jlookup (extractWithRules sd ts) "applicant_address" =
      jlookup (addrStep sd (emailStep sd (legalStep sd []))) "applicant_address" := by
    unfold extractWithRules
    rw [jlookup_feinStep_ne _ _ (by decide), jlookup_bphoneStep_ne _ _ (by decide),
        jlookup_cphoneStep_ne _ _ (by decide), jlookup_cnameStep_ne _ _ (by decide),
        jlookup_naicsStep_ne _ _ (by decide), jlookup_sicStep_ne _ _ (by decide),
        jlookup_revStep_ne _ _ (by decide), jlookup_premiseStep_ne _ _ (by decide)]
  constructor
  · intro hc
    rw [hred]
    unfold premiseStep
    dsimp only
    rw [if_pos hc]
    exact jlookup_setK_self _ _ _
  · intro hc aav ha
    rw [haddr] at ha
    have haav : truthy aav = true := by
      have h2 : jlookup (emailStep sd (legalStep sd [])) "applicant_address" = none := by
        rw [jlookup_emailStep_ne _ _ (by decide), jlookup_legalStep_ne _ _ (by decide)]
        rfl
      unfold addrStep addIf at ha
      dsimp only at ha
      by_cases hcx : (truthy (get1 sd "applicant_address") &&
          minLenString 15 (get1 sd "applicant_address")) = true
      · rw [if_pos hcx, jlookup_setK_self] at ha
        obtain rfl : aav = get1 sd "applicant_address" := (Option.some.inj ha).symm
        exact ((Bool.and_eq_true _ _).mp hcx).1
      · rw [if_neg hcx, h2] at ha
        exact Option.noConfusion ha
    rw [hred]
    unfold premiseStep
    dsimp only
    rw [if_neg (by rw [hc]; exact Bool.false_ne_true), ha]
    dsimp only
    rw [if_pos haav]
    exact jlookup_setK_self _ _ _

/-- Lookup in `extractedData` after init and the rules merge: an absent or
null rule result leaves the (non-checkbox) schema default `null`, a
non-null rule result wins. -/
theorem jlookup_merged_char (r : JMap) (hnd : (r.map Prod.fst).Nodup)
    (f : SchemaField) (hf : f ∈ formSchema) :
    (jlookup r f.key = none →
      jlookup (mergeNonNull initMap r) f.key = some JVal.null) ∧
    (jlookup r f.key = some JVal.null →
      jlookup (mergeNonNull initMap r) f.key = some JVal.null) ∧
    (∀ v, jlookup r f.key = some v → v ≠ JVal.null →
      jlookup (mergeNonNull initMap r) f.key = some v) := by
  have hinit : jlookup initMap f.key = some JVal.null := by
    have h := jlookup_genInit_of_nodup formSchema schemaKeys_nodup f hf
    rwa [if_neg (formSchema_no_checkbox f hf)] at h
  unfold mergeNonNull
  refine ⟨fun h => ?_, fun h => ?_, fun v h hv => ?_⟩
  · rw [jlookup_mergeFold_absent _ r f.key h initMap, hinit]
  · rw [jlookup_mergeFold_some _ r f.key hnd _ h initMap, if_neg (by simp), hinit]
  · rw [jlookup_mergeFold_some _ r f.key hnd v h initMap, if_pos (by simp [hv])]

/-- The three-field schema of the spec's gap-analysis example
(`remaining(schema, {a: "x", b: null})` over keys `{a, b, c}`). -/
def abcSchema : List SchemaField :=
  [⟨"a", "A", .text, false, fun _ => true⟩,
   ⟨"b", "B", .text, false, fun _ => true⟩,
   ⟨"c", "C", .text, false, fun _ => true⟩]

/-- C5: Gap analysis. Over the initialized map merged with any rule-stage
partial map, the set of keys forwarded to the LLM stage is exactly the
schema keys whose partial-map value is absent, null, or the empty string;
on the example schema `{a, b, c}` with partial map `{a: "x", b: null}` the
remaining set is exactly `{b, c}`; and the same characterization holds for
the pipeline's own `remainingKeys` over every rule-extractor output. -/
theorem C5_gap_analysis :
    (∀ r : JMap, (r.map Prod.fst).Nodup → ∀ k : String,
      k ∈ (genRemaining formSchema (mergeNonNull initMap r)).map (·.key) ↔
        (k ∈ schemaKeys ∧ (jlookup r k = none ∨ jlookup r k = some JVal.null ∨
          jlookup r k = some (JVal.str "")))) ∧
    (genRemaining abcSchema (mergeNonNull (genInit abcSchema)
        [("a", JVal.str "x"), ("b", JVal.null)])).map (·.key) = ["b", "c"] ∧
    (∀ (sd : JMap) (ts : List String) (k : String),
      k ∈ remainingKeys sd ts ↔
        (k ∈ schemaKeys ∧ (jlookup (extractWithRules sd ts) k = none ∨
          jlookup (extractWithRules sd ts) k = some JVal.null ∨
          jlookup (extractWithRules sd ts) k = some (JVal.str "")))) := by
  have part1 : ∀ r : JMap, (r.map Prod.fst).Nodup → ∀ k : String,
      k ∈ (genRemaining formSchema (mergeNonNull initMap r)).map (·.key) ↔
        (k ∈ schemaKeys ∧ (jlookup r k = none ∨ jlookup r k = some JVal.null ∨
          jlookup r k = some (JVal.str ""))) := by
    intro r hnd k
    constructor
    · intro hk
      rcases List.mem_map.mp hk with ⟨f, hfmem, hfk⟩
      rcases List.mem_filter.mp hfmem with ⟨hf, hp⟩
      subst hfk
      refine ⟨List.mem_map_of_mem _ hf, ?_⟩
      obtain ⟨hnone, hnull, hsome⟩ := jlookup_merged_char r hnd f hf
      cases hr : jlookup r f.key with
      | none => exact Or.inl rfl
      | some v =>
          cases v with
          | null => exact Or.inr (Or.inl rfl)
          | str s =>
              by_cases hs : s = ""
              · subst hs; exact Or.inr (Or.inr rfl)
              · exfalso
                rw [hsome _ hr (by simp)] at hp
                simp [isMissingO, hs] at hp
          | num q =>
              exfalso
              rw [hsome _ hr (by simp)] at hp
              simp [isMissingO] at hp
          | bool b =>
              exfalso
              rw [hsome _ hr (by simp)] at hp
              simp [isMissingO] at hp
              exact formSchema_no_checkbox f hf hp.1
    · rintro ⟨hks, hdisj⟩
      rcases List.mem_map.mp hks with ⟨f, hf, rfl⟩
      refine List.mem_map_of_mem _ (List.mem_filter.mpr ⟨hf, ?_⟩)
      obtain ⟨hnone, hnull, hsome⟩ := jlookup_merged_char r hnd f hf
      rcases hdisj with h | h | h
      · rw [hnone h]; simp [isMissingO]
      · rw [hnull h]; simp [isMissingO]
      · rw [hsome _ h (by simp)]; simp [isMissingO]
  exact ⟨part1, by decide, fun sd ts k => part1 _ (rulesKeys_nodup sd ts) k⟩

theorem fFein_mem_formSchema : fFein ∈ formSchema := by
  unfold formSchema
  exact List.Mem.tail _ (List.Mem.tail _ (List.Mem.tail _ (List.Mem.tail _
    (List.Mem.tail _ (List.Mem.tail _ (List.Mem.head _))))))

/-- C2 counterexample: the claim says a rule-accepted field "retains exactly
that value in the final field map"; but the final-cleanup pass trims
text-typed values, so the rule-accepted `legal_name` value `" Acme "`
reaches the final map as `"Acme"`, not exactly itself (even with an empty
candidate map). -/
theorem C2_counterexample_trim_normalization :
    jlookup (extractWithRules [("legal_name", JVal.str " Acme ")] []) "legal_name" =
      some (JVal.str " Acme ") ∧
    jlookup (handlerExtract [("legal_name", JVal.str " Acme ")] [] []) "legal_name" =
      some (JVal.str "Acme") ∧
    JVal.str "Acme" ≠ JVal.str " Acme " := ⟨by decide, by decide, by decide⟩

/-- C2 (amended): a field the Rule Extractor populated with a non-null,
non-empty value is excluded from the remaining schema, so the LLM merge
leaves it at exactly the rule value regardless of the candidate map, and
the final map holds that value up to the final per-type cleanup
(`cleanupVal`: trim for text-like fields, numeric re-parse for number
fields — the identity on already-normalized values such as the fein
example) — in particular the final value is independent of the candidate
map. -/
theorem C2_rule_values_not_overwritten (sd : JMap) (ts : List String) (llm : JMap)
    (f : SchemaField) (hf : f ∈ formSchema) (v : JVal)
    (hv : jlookup (extractWithRules sd ts) f.key = some v)
    (hvn : v ≠ JVal.null) (hve : v ≠ JVal.str "") :
    f.key ∉ remainingKeys sd ts ∧
    jlookup (preCleanup sd ts llm) f.key = some v ∧
    jlookup (handlerExtract sd ts llm) f.key = some (cleanupVal f v) ∧
    jlookup (handlerExtract sd ts llm) f.key = jlookup (handlerExtract sd ts []) f.key := by
  have hnd := rulesKeys_nodup sd ts
  have hmerged : jlookup (mergedRules sd ts) f.key = some v := by
    unfold mergedRules
    exact (jlookup_merged_char _ hnd f hf).2.2 v hv hvn
  have hnotrem : f.key ∉ remainingKeys sd ts := by
    intro hk
    unfold remainingKeys at hk
    rcases List.mem_map.mp hk with ⟨g, hgmem, hgk⟩
    rcases List.mem_filter.mp hgmem with ⟨hg, hp⟩
    rw [hgk] at hp
    rw [hmerged] at hp
    have hgc := formSchema_no_checkbox g hg
    simp [isMissingO, hvn, hve, hgc] at hp
  have hpre : ∀ llm' : JMap, jlookup (preCleanup sd ts llm') f.key = some v := by
    intro llm'
    unfold preCleanup
    dsimp only
    split
    · exact hmerged
    · unfold llmMerge
      rw [jlookup_mergeFold_skip _ llm' f.key
        (fun w => by simp only [Bool.and_eq_false_imp]; intro _; simpa using hnotrem)]
      exact hmerged
  have hclean : ∀ llm' : JMap,
      jlookup (handlerExtract sd ts llm') f.key = some (cleanupVal f v) := by
    intro llm'
    unfold handlerExtract
    rw [jlookup_cleanup, hpre llm']
    simp only [Option.map_some', findField_eq_of_mem f hf]
  exact ⟨hnotrem, hpre llm, hclean llm, (hclean llm).trans (hclean []).symm⟩

/-- C2 witness: the claim's own instance — `fein` found by the rules as
`"12-3456789"` (from a transcript), candidate map proposing `"99-9999999"`,
final map retaining `"12-3456789"` exactly. -/
theorem C2_witness_fein_example :
    jlookup (extractWithRules [] ["FEIN is 12-3456789"]) "fein" =
      some (JVal.str "12-3456789") ∧
    jlookup (handlerExtract [] ["FEIN is 12-3456789"] [("fein", JVal.str "99-9999999")])
      "fein" = some (JVal.str "12-3456789") := by
  refine ⟨by decide, ?_⟩
  have h := C2_rule_values_not_overwritten [] ["FEIN is 12-3456789"]
    [("fein", JVal.str "99-9999999")] fFein fFein_mem_formSchema
    (JVal.str "12-3456789") (by decide) (by decide) (by decide)
  exact h.2.2.1.trans (by decide)

/-- C8: field-map completeness. For every input — structured data,
transcripts, and LLM candidate map (a JS object, so with distinct keys) —
the final field map has an entry for every schema key; and a key for which
neither the rules nor the LLM produced a value is mapped to the schema
default (`false` for checkbox-typed fields, `null` otherwise; `formSchema`
itself has no checkbox field, so `null`). -/
theorem C8_field_map_completeness (sd : JMap) (ts : List String) (llm : JMap)
    (hnd : (llm.map Prod.fst).Nodup) :
    (∀ f ∈ formSchema, (jlookup (handlerExtract sd ts llm) f.key).isSome = true) ∧
    (∀ f ∈ formSchema,
      jlookup (extractWithRules sd ts) f.key = none →
      (jlookup llm f.key = none ∨ jlookup llm f.key = some JVal.null) →
      jlookup (handlerExtract sd ts llm) f.key =
        some (if f.ftype = FType.checkbox then JVal.bool false else JVal.null)) := by
  constructor
  · intro f hf
    have h0 : (jlookup initMap f.key).isSome := jlookup_genInit_isSome formSchema f hf
    have h1 : (jlookup (mergedRules sd ts) f.key).isSome := by
      unfold mergedRules mergeNonNull
      exact isSome_jlookup_mergeFold _ _ _ initMap h0
    have h2 : (jlookup (preCleanup sd ts llm) f.key).isSome := by
      unfold preCleanup
      dsimp only
      split
      · exact h1
      · unfold llmMerge
        exact isSome_jlookup_mergeFold _ _ _ _ h1
    unfold handlerExtract
    rw [jlookup_cleanup]
    simpa using h2
  · intro f hf hr hl
    have hmerged : jlookup (mergedRules sd ts) f.key = some JVal.null := by
      unfold mergedRules
      exact (jlookup_merged_char _ (rulesKeys_nodup sd ts) f hf).1 hr
    have hpre : jlookup (preCleanup sd ts llm) f.key = some JVal.null := by
      unfold preCleanup
      dsimp only
      split
      · exact hmerged
      · unfold llmMerge
        rcases hl with hl | hl
        · rw [jlookup_mergeFold_absent _ llm f.key hl]
          exact hmerged
        · rw [jlookup_mergeFold_some _ llm f.key hnd _ hl, if_neg (by simp)]
          exact hmerged
    unfold handlerExtract
    rw [jlookup_cleanup, hpre]
    simp only [Option.map_some', findField_eq_of_mem f hf]
    have hcv : cleanupVal f JVal.null =
        (if f.ftype = FType.checkbox then JVal.bool false else JVal.null) := by
      cases hft : f.ftype <;> simp [cleanupVal, hft, cleanupCheckbox]
    rw [hcv]

/-- C8 witness: on entirely empty inputs the run still yields an entry for
`fein`, namely `null`. -/
theorem C8_field_map_completeness_witness :
    (jlookup (handlerExtract [] [] []) "fein").isSome = true ∧
    jlookup (handlerExtract [] [] []) "fein" = some JVal.null := by
  have h := C8_field_map_completeness [] [] [] (by decide)
  refine ⟨h.1 fFein fFein_mem_formSchema, ?_⟩
  exact (h.2 fFein fFein_mem_formSchema (by decide) (Or.inl (by decide))).trans (by decide)

/-- C1 (code bug): confidence gating at merge is not implemented for
non-number fields. With empty structured data and transcripts, the LLM
candidate `fein = "bad-fein"` fails the fein validator, yet the handler
merges it (fein is a remaining field, the value non-null) and the final
cleanup merely trims it: the invalid value appears in the final field map,
and the validation pass the caller then runs (src/pages/index.js) reports
it — the claim requires the candidate to vanish without a trace. -/
theorem C1_validator_failing_candidate_reaches_final_map :
    feinValidation (JVal.str "bad-fein") = false ∧
    "fein" ∈ remainingKeys [] [] ∧
    jlookup (handlerExtract [] [] [("fein", JVal.str "bad-fein")]) "fein" =
      some (JVal.str "bad-fein") ∧
    alookup (validateAcord125Data
        (handlerExtract [] [] [("fein", JVal.str "bad-fein")])).2 "fein" =
      some "Invalid FEIN. Format: XX-XXXXXXX" :=
  ⟨by decide, by decide, by decide, by decide⟩

/-! ## Voice-path versus pipeline number coercion (for C9) -/

theorem dropWhile_ws_eq_self (cs : List Char) (h : ∀ c ∈ cs, isWs c = false) :
    cs.dropWhile isWs = cs := by
  cases cs with
  | nil => rfl
  | cons c rest =>
      rw [List.dropWhile_cons, h c (List.mem_cons_self c rest)]
      simp

theorem trimL_eq_self (cs : List Char) (h : ∀ c ∈ cs, isWs c = false) :
    trimL cs = cs := by
  unfold trimL
  rw [dropWhile_ws_eq_self cs h,
      dropWhile_ws_eq_self _ (fun c hc => h c (List.mem_reverse.mp hc)),
      List.reverse_reverse]

theorem stripSvcChars_no_ws (s : String) :
    ∀ c ∈ (stripSvcChars s).data, isWs c = false := by
  intro c hc
  have hp := List.of_mem_filter (p := fun c => decide ¬(c = '$' ∨ c = ',' ∨ isWs c = true)) hc
  simpa using fun h => (of_decide_eq_true hp) (Or.inr (Or.inr h))

theorem stripVoice_eq_stripSvc (s : String)
    (h : ∀ c ∈ s.data, isWs c = true → c = ' ') :
    stripVoiceChars s = stripSvcChars s := by
  unfold stripVoiceChars stripSvcChars
  congr 1
  apply List.filter_congr
  intro c hc
  by_cases hw : isWs c = true
  · have := h c hc hw
    subst this
    simp [isWs]
  · have hsp : c ≠ ' ' := fun e => by rw [e] at hw; exact hw (by decide)
    simp [hw, hsp]

theorem lookup_pair_mem {α β : Type} [BEq α] (l : List (α × β)) (a : α) (b : β)
    (h : l.lookup a = some b) : ∃ p ∈ l, p.2 = b := by
  induction l with
  | nil => simp [List.lookup] at h
  | cons kv rest ih =>
      obtain ⟨k, v⟩ := kv
      rw [List.lookup] at h
      cases hab : a == k with
      | true =>
          rw [hab] at h
          exact ⟨(k, v), List.mem_cons_self _ _, Option.some.inj h⟩
      | false =>
          rw [hab] at h
          rcases ih h with ⟨p, hp, he⟩
          exact ⟨p, List.mem_cons_of_mem _ hp, he⟩

theorem wordMapped_ws_spaces (s : String)
    (h : ∀ c ∈ (jsLower (jsTrim s)).data, isWs c = true → c = ' ') :
    ∀ c ∈ (wordMapped s).data, isWs c = true → c = ' ' := by
  have hws : wordMapped s = jsLower (jsTrim s) ∨
      ∃ p ∈ numberWords, wordMapped s = jsNumToString p.2 := by
    unfold wordMapped
    dsimp only
    cases hl : numberWords.lookup (jsLower (jsTrim s)) with
    | none => exact Or.inl rfl
    | some n =>
        obtain ⟨p, hp, rfl⟩ := lookup_pair_mem _ _ _ hl
        exact Or.inr ⟨p, hp, rfl⟩
  rcases hws with hws | ⟨p, hp, hws⟩
  · rw [hws]; exact h
  · rw [hws]
    intro c hc hw
    have hall : ∀ p ∈ numberWords, ∀ c ∈ (jsNumToString p.2).data, isWs c = false := by
      decide
    rw [hall p hp c hc] at hw
    exact absurd hw Bool.false_ne_true

theorem cleanedSvc_eq_voice (s : String)
    (h : ∀ c ∈ (jsLower (jsTrim s)).data, isWs c = true → c = ' ') :
    cleanedSvc s = stripVoiceChars (wordMapped s) := by
  unfold cleanedSvc jsTrim
  rw [trimL_eq_self _ (stripSvcChars_no_ws (wordMapped s))]
  exact (stripVoice_eq_stripSvc _ (wordMapped_ws_spaces s h)).symm

/-- The number coercion of the voice update path agrees with the pipeline's
`parseNumeric` exactly when the trimmed raw string carries no trailing
`k`/`m` multiplier letter and its only whitespace characters are literal
spaces (the two operations the voice path omits). -/
theorem voiceNum_eq_parseNumeric (s : String)
    (hkm : lastCharKM (jsTrim s) = none)
    (h : ∀ c ∈ (jsLower (jsTrim s)).data, isWs c = true → c = ' ') :
    voiceNumCoerce s = parseNumericSvc (.str s) := by
  unfold voiceNumCoerce parseNumericSvc
  dsimp only
  rw [← cleanedSvc_eq_voice s h]
  by_cases he : cleanedSvc s = ""
  · rw [if_pos he, he, (by decide : jsParseFloat "" = (none : Option ℚ))]
  · rw [if_neg he]
    cases hp : jsParseFloat (cleanedSvc s) with
    | none => rfl
    | some q =>
        dsimp only
        unfold applyMult
        rw [hkm]
        simp

/-- C9 counterexample: the voice path's inline number coercion is not
extensionally equal to the pipeline's `parseNumeric`: it applies no
trailing-`k`/`m` multiplier, so the voice update for `annual_revenue` with
raw value `"50k"` accepts `50`, while `parseNumeric` yields `50000`. -/
theorem C9_counterexample_voice_km :
    voiceUpdate "annual_revenue" (JVal.str "50k") =
      VoiceOut.update "annual_revenue" (JVal.num 50) ∧
    parseNumericSvc (JVal.str "50k") = some 50000 ∧
    voiceNumCoerce "50k" ≠ parseNumericSvc (JVal.str "50k") :=
  ⟨by decide, by decide, by decide⟩

/-- C9 (amended): every voice-originated update is gated by the inline
per-type coercion followed by the field's schema validator — an accepted
UPDATE always carries a validator-passing value, unknown fields and
coercion or validation failures yield AMBIGUOUS with no UPDATE emitted —
and the inline number coercion (digit-word map, `$`/`,`/space stripping,
`parseFloat`) agrees with the pipeline's `parseNumeric` exactly on inputs
with no trailing `k`/`m` multiplier letter and no whitespace other than
literal spaces; it is not extensionally equal in general (see the `"50k"`
counterexample). -/
theorem C9_voice_gate :
    (∀ (k : String) (v cv : JVal) (f : SchemaField), findField k = some f →
      voiceUpdate k v = .update k cv → f.validation cv = true) ∧
    (∀ (k : String) (v : JVal), findField k = none → voiceUpdate k v = .ambiguous) ∧
    (∀ (k : String) (v : JVal) (f : SchemaField), findField k = some f →
      f.ftype = .number → voiceNumCoerce (jsToString v) = none →
      voiceUpdate k v = .ambiguous) ∧
    (∀ (k : String) (v : JVal) (f : SchemaField) (q : ℚ), findField k = some f →
      f.ftype = .number → voiceNumCoerce (jsToString v) = some q →
      f.validation (.num q) = false → voiceUpdate k v = .ambiguous) ∧
    (∀ s : String, lastCharKM (jsTrim s) = none →
      (∀ c ∈ (jsLower (jsTrim s)).data, isWs c = true → c = ' ') →
      voiceNumCoerce s = parseNumericSvc (.str s)) := by
  refine ⟨?_, ?_, ?_, ?_, voiceNum_eq_parseNumeric⟩
  · intro k v cv f hfind hupd
    unfold voiceUpdate at hupd
    rw [hfind] at hupd
    dsimp only at hupd
    cases hft : f.ftype <;> rw [hft] at hupd <;> dsimp only at hupd
    case number =>
      cases hc : voiceNumCoerce (jsToString v) with
      | none => rw [hc] at hupd; exact VoiceOut.noConfusion hupd
      | some q =>
          rw [hc] at hupd
          dsimp only at hupd
          by_cases hval : f.validation (JVal.num q) = true
          · rw [if_pos hval] at hupd
            obtain ⟨-, rfl⟩ := VoiceOut.update.inj hupd
            exact hval
          · rw [if_neg hval] at hupd
            exact VoiceOut.noConfusion hupd
    case checkbox =>
      cases hc : voiceCheckboxCoerce v with
      | none => rw [hc] at hupd; exact VoiceOut.noConfusion hupd
      | some b =>
          rw [hc] at hupd
          dsimp only at hupd
          by_cases hval : f.validation (JVal.bool b) = true
          · rw [if_pos hval] at hupd
            obtain ⟨-, rfl⟩ := VoiceOut.update.inj hupd
            exact hval
          · rw [if_neg hval] at hupd
            exact VoiceOut.noConfusion hupd
    all_goals {
      by_cases hval : f.validation (JVal.str (jsTrim (jsToString v))) = true
      · rw [if_pos hval] at hupd
        obtain ⟨-, rfl⟩ := VoiceOut.update.inj hupd
        exact hval
      · rw [if_neg hval] at hupd
        exact VoiceOut.noConfusion hupd }
  · intro k v hfind
    unfold voiceUpdate
    rw [hfind]
  · intro k v f hfind hft hc
    unfold voiceUpdate
    rw [hfind]
    dsimp only
    rw [hft, hc]
  · intro k v f q hfind hft hc hval
    unfold voiceUpdate
    rw [hfind]
    dsimp only
    rw [hft, hc]
    dsimp only
    rw [if_neg (by rw [hval]; exact Bool.false_ne_true)]

/-! ## Validation lemmas (for C7) -/

/-- The error entries one field contributes to `validateAcord125Data`'s
report: the required-missing message, or the specific validator-failure
message, or nothing. -/
def fieldError1 (fd : JMap) (f : SchemaField) : List (String × String) :=
  if f.required && isEmptyO (jlookup fd f.key) then
    [(f.key, f.label ++ " is required")]
  else
    match jlookup fd f.key with
    | some jv =>
        if !emptyJ jv && !f.validation jv then [(f.key, specificError f jv)] else []
    | none => []

/-- The whole report as a straight recursion (used to reason about the
fold in `validateAcord125Data`). -/
def fieldErrors (fd : JMap) : List SchemaField → List (String × String)
  | [] => []
  | f :: rest => fieldError1 fd f ++ fieldErrors fd rest

theorem list_isEmpty_append {α : Type} (l1 l2 : List α) :
    (l1 ++ l2).isEmpty = (l1.isEmpty && l2.isEmpty) := by
  cases l1 <;> rfl

theorem validateStep_eq (fd : JMap) (acc : Bool × List (String × String))
    (f : SchemaField) :
    validateStep fd acc f =
      (acc.1 && (fieldError1 fd f).isEmpty, acc.2 ++ fieldError1 fd f) := by
  unfold validateStep fieldError1
  dsimp only
  by_cases h1 : (f.required && isEmptyO (jlookup fd f.key)) = true
  · rw [if_pos h1, if_pos h1]
    simp
  · rw [if_neg h1, if_neg h1]
    cases hv : jlookup fd f.key with
    | none => simp
    | some jv =>
        dsimp only
        by_cases h2 : (!emptyJ jv && !f.validation jv) = true
        · rw [if_pos h2, if_pos h2]
          simp
        · rw [if_neg h2, if_neg h2]
          simp

theorem validate_foldl_eq (fd : JMap) (fs : List SchemaField) :
    ∀ (b : Bool) (es : List (String × String)),
      fs.foldl (validateStep fd) (b, es) =
        (b && (fieldErrors fd fs).isEmpty, es ++ fieldErrors fd fs) := by
  induction fs with
  | nil => intro b es; simp [fieldErrors]
  | cons f rest ih =>
      intro b es
      rw [List.foldl_cons, validateStep_eq, ih]
      simp only [fieldErrors, list_isEmpty_append, List.append_assoc, Bool.and_assoc]

theorem validateAcord125Data_eq (fd : JMap) :
    validateAcord125Data fd =
      ((fieldErrors fd formSchema).isEmpty, fieldErrors fd formSchema) := by
  unfold validateAcord125Data
  rw [validate_foldl_eq]
  simp

theorem mem_fieldErrors (fd : JMap) (fs : List SchemaField) (e : String × String) :
    e ∈ fieldErrors fd fs ↔ ∃ f ∈ fs, e ∈ fieldError1 fd f := by
  induction fs with
  | nil => simp [fieldErrors]
  | cons g rest ih =>
      simp only [fieldErrors, List.mem_append, ih, List.mem_cons]
      constructor
      · rintro (h | ⟨f, hf, he⟩)
        · exact ⟨g, Or.inl rfl, h⟩
        · exact ⟨f, Or.inr hf, he⟩
      · rintro ⟨f, rfl | hf, he⟩
        · exact Or.inl he
        · exact Or.inr ⟨f, hf, he⟩

theorem mem_fieldError1 (fd : JMap) (f : SchemaField) (e : String × String)
    (he : e ∈ fieldError1 fd f) :
    e.1 = f.key ∧
    ((f.required = true ∧ isEmptyO (jlookup fd f.key) = true ∧
        e.2 = f.label ++ " is required") ∨
      (∃ jv, jlookup fd f.key = some jv ∧ emptyJ jv = false ∧ f.validation jv = false ∧
        e.2 = specificError f jv)) := by
  unfold fieldError1 at he
  by_cases h1 : (f.required && isEmptyO (jlookup fd f.key)) = true
  · rw [if_pos h1] at he
    obtain rfl := List.mem_singleton.mp he
    obtain ⟨ha, hb⟩ := Bool.and_eq_true _ _ |>.mp h1
    exact ⟨rfl, Or.inl ⟨ha, hb, rfl⟩⟩
  · rw [if_neg h1] at he
    cases hv : jlookup fd f.key with
    | none => rw [hv] at he; simp at he
    | some jv =>
        rw [hv] at he
        dsimp only at he
        by_cases h2 : (!emptyJ jv && !f.validation jv) = true
        · rw [if_pos h2] at he
          obtain rfl := List.mem_singleton.mp he
          obtain ⟨ha, hb⟩ := Bool.and_eq_true _ _ |>.mp h2
          exact ⟨rfl, Or.inr ⟨jv, rfl, by simpa using ha, by simpa using hb, rfl⟩⟩
        · rw [if_neg h2] at he
          simp at he

theorem alookup_eq_none {α : Type} (l : List (String × α)) (k : String)
    (h : ∀ e ∈ l, e.1 ≠ k) : alookup l k = none := by
  induction l with
  | nil => rfl
  | cons e rest ih =>
      obtain ⟨k', v⟩ := e
      have hk : k' ≠ k := h (k', v) (List.mem_cons_self _ _)
      simp only [alookup, if_neg hk]
      exact ih fun e he => h e (List.mem_cons_of_mem _ he)

theorem alookup_append_left_none {α : Type} (l1 l2 : List (String × α)) (k : String)
    (h : ∀ e ∈ l1, e.1 ≠ k) : alookup (l1 ++ l2) k = alookup l2 k := by
  induction l1 with
  | nil => rfl
  | cons e rest ih =>
      obtain ⟨k', v⟩ := e
      have hk : k' ≠ k := h (k', v) (List.mem_cons_self _ _)
      simp only [List.cons_append, alookup, if_neg hk]
      exact ih fun e he => h e (List.mem_cons_of_mem _ he)

theorem fieldErrors_key (fd : JMap) (fs : List SchemaField) (e : String × String)
    (he : e ∈ fieldErrors fd fs) : ∃ f ∈ fs, e.1 = f.key := by
  rcases (mem_fieldErrors fd fs e).mp he with ⟨f, hf, h1⟩
  exact ⟨f, hf, (mem_fieldError1 fd f e h1).1⟩

theorem alookup_fieldErrors_eq (fd : JMap) (fs : List SchemaField)
    (hnd : (fs.map (·.key)).Nodup) (f : SchemaField) (hf : f ∈ fs) :
    alookup (fieldErrors fd fs) f.key = alookup (fieldError1 fd f) f.key := by
  induction fs with
  | nil => cases hf
  | cons g rest ih =>
      simp only [List.map_cons, List.nodup_cons] at hnd
      rcases List.mem_cons.mp hf with rfl | hmem
      · show alookup (fieldError1 fd f ++ fieldErrors fd rest) f.key = _
        cases h1 : fieldError1 fd f with
        | nil =>
            simp only [h1, List.nil_append]
            rw [alookup_eq_none]
            · rfl
            · intro e he hk
              rcases fieldErrors_key fd rest e he with ⟨f', hf', hkf⟩
              exact hnd.1 (hk ▸ hkf ▸ List.mem_map_of_mem (fun x => x.key) hf')
        | cons e tail =>
            obtain ⟨k1, v1⟩ := e
            have hke : k1 = f.key :=
              (mem_fieldError1 fd f (k1, v1) (by rw [h1]; exact List.mem_cons_self _ _)).1
            simp only [h1, List.cons_append, alookup, if_pos hke]
      · have hgk : g.key ≠ f.key := fun e =>
          hnd.1 (e ▸ List.mem_map_of_mem (fun x => x.key) hmem)
        show alookup (fieldError1 fd g ++ fieldErrors fd rest) f.key = _
        rw [alookup_append_left_none]
        · exact ih hnd.2 hmem
        · intro e he
          rw [(mem_fieldError1 fd g e he).1]
          exact hgk

/-- C7: validation report and `isValid`. For every form-data map (whose
`sic`/`naics` values are strings or empty — on other value types those two
validators would throw a TypeError in JS, a branch the embedding models as
`false` and these theorems therefore exclude), `validateAcord125Data`
returns `isValid = true` iff the report is empty and every required field
is non-empty; every required-and-empty field contributes exactly the entry
`"<Label> is required"` under its key; and entries exist only for fields
that are required-and-missing or whose populated value fails its
validator. -/
theorem C7_validation_report (fd : JMap)
    (hsic : ∀ v, jlookup fd "sic" = some v → v = JVal.null ∨ ∃ s, v = JVal.str s)
    (hnaics : ∀ v, jlookup fd "naics" = some v → v = JVal.null ∨ ∃ s, v = JVal.str s) :
    ((validateAcord125Data fd).1 = true ↔
      ((validateAcord125Data fd).2 = [] ∧
        ∀ f ∈ formSchema, f.required = true → isEmptyO (jlookup fd f.key) = false)) ∧
    (∀ f ∈ formSchema, f.required = true → isEmptyO (jlookup fd f.key) = true →
      alookup (validateAcord125Data fd).2 f.key = some (f.label ++ " is required")) ∧
    (∀ k msg, (k, msg) ∈ (validateAcord125Data fd).2 →
      ∃ f ∈ formSchema, f.key = k ∧
        ((f.required = true ∧ isEmptyO (jlookup fd f.key) = true) ∨
          (∃ jv, jlookup fd f.key = some jv ∧ emptyJ jv = false ∧
            f.validation jv = false))) := by
  have hreq1 : ∀ f : SchemaField, f.required = true → isEmptyO (jlookup fd f.key) = true →
      fieldError1 fd f = [(f.key, f.label ++ " is required")] := by
    intro f hr he
    unfold fieldError1
    rw [if_pos (by rw [hr, he]; rfl)]
  refine ⟨?_, ?_, ?_⟩
  · rw [validateAcord125Data_eq]
    dsimp only
    constructor
    · intro hempty
      have hnil : fieldErrors fd formSchema = [] := by
        cases h : fieldErrors fd formSchema with
        | nil => rfl
        | cons e tail => rw [h] at hempty; exact Bool.noConfusion hempty
      refine ⟨hnil, fun f hf hr => ?_⟩
      cases he : isEmptyO (jlookup fd f.key) with
      | false => rfl
      | true =>
          exfalso
          have hmem : (f.key, f.label ++ " is required") ∈ fieldErrors fd formSchema :=
            (mem_fieldErrors fd formSchema _).mpr
              ⟨f, hf, by rw [hreq1 f hr he]; exact List.mem_singleton_self _⟩
          rw [hnil] at hmem
          cases hmem
    · rintro ⟨hnil, -⟩
      rw [hnil]
      rfl
  · intro f hf hr he
    rw [validateAcord125Data_eq]
    dsimp only
    rw [alookup_fieldErrors_eq fd formSchema schemaKeys_nodup f hf, hreq1 f hr he]
    simp [alookup]
  · intro k msg hmem
    rw [validateAcord125Data_eq] at hmem
    dsimp only at hmem
    rcases (mem_fieldErrors fd formSchema _).mp hmem with ⟨f, hf, h1⟩
    obtain ⟨hkey, hcase⟩ := mem_fieldError1 fd f _ h1
    refine ⟨f, hf, hkey.symm ▸ rfl, ?_⟩
    rcases hcase with ⟨hr, he, -⟩ | ⟨jv, hjv, hne, hval, -⟩
    · exact Or.inl ⟨hr, he⟩
    · exact Or.inr ⟨jv, hjv, hne, hval⟩

/-- C7 witness: on the concrete map `{legal_name: "Acme"}` the validator is
invalid, `fein` is reported as `"FEIN is required"`, and the report is
non-empty exactly as the theorem predicts. -/
theorem C7_validation_report_witness :
    alookup (validateAcord125Data [("legal_name", JVal.str "Acme")]).2 "fein" =
      some "FEIN is required" ∧
    ((validateAcord125Data [("legal_name", JVal.str "Acme")]).1 = true ↔
      ((validateAcord125Data [("legal_name", JVal.str "Acme")]).2 = [] ∧
        ∀ f ∈ formSchema, f.required = true →
          isEmptyO (jlookup [("legal_name", JVal.str "Acme")] f.key) = false)) := by
  have h := C7_validation_report [("legal_name", JVal.str "Acme")]
    (fun v hv => by
      rw [(show jlookup [("legal_name", JVal.str "Acme")] "sic" = (none : Option JVal)
        by decide)] at hv
      exact Option.noConfusion hv)
    (fun v hv => by
      rw [(show jlookup [("legal_name", JVal.str "Acme")] "naics" = (none : Option JVal)
        by decide)] at hv
      exact Option.noConfusion hv)
  exact ⟨(h.2.1 fFein fFein_mem_formSchema (by decide) (by decide)).trans (by decide), h.1⟩
